import Mathlib

/-!
Verification of the ScaleLLM serving core against its specification.

The development shallowly embeds the parts of the C++ source that the checked
properties speak about: the model-factory dispatch (`causal_lm.cpp`), the gRPC
chat handler (`chat_handler.cpp`), the llama2 model forward pass (llama2 model
header), and the rotary-embedding helper (`pos_embedding.cpp`).  Components the
specification describes but whose implementation files are not part of the
source tree given here (Block Allocator, Sequence bookkeeping, Scheduler,
Sampling Pipeline, best-of selection) are modelled from the specification text;
each such definition is marked `Modelled from the spec:` in its doc comment.

Machine floats are modelled by exact numbers: logits and log-probabilities as
rationals, the rotary inverse frequencies over the reals.
-/

namespace llm

/-! ## Model factory (`causal_lm.cpp`, `llm::CausalLM::create`) -/

/-- The model families that `CausalLM::create` can instantiate, one per
`if (boost::iequals(args.model_type(), ...))` branch of `causal_lm.cpp`. -/
inductive ModelFamily where
  | llama2
  | hf_llama
  | hf_gpt2
  | hf_gpt_neox
  | hf_mistral
  | hf_aquila
deriving DecidableEq, Repr

/-- Character-wise lower-casing, the effect of `std::tolower` per char that
`boost::iequals` compares with. -/
def str_tolower (s : String) : String := String.mk (s.data.map Char.toLower)

/-- Embeds `boost::iequals`: case-insensitive equality of two strings. -/
def iequals (a b : String) : Bool := str_tolower a == str_tolower b

/-- Embeds `llm::CausalLM::create` (causal_lm.cpp): dispatch on `model_type`
with `boost::iequals`, returning `nullptr` (here `none`) for unsupported
model types after logging an error. -/
def CausalLM.create (model_type : String) : Option ModelFamily :=
  if iequals model_type "llama2" then some .llama2
  else if iequals model_type "llama" then some .hf_llama
  else if iequals model_type "gpt2" then some .hf_gpt2
  else if iequals model_type "gpt_neox" then some .hf_gpt_neox
  else if iequals model_type "mistral" then some .hf_mistral
  else if iequals model_type "aquila" then some .hf_aquila
  else none

/-- The supported `model_type` spellings, in lower case. -/
def supported_model_types : List String :=
  ["llama2", "llama", "gpt2", "gpt_neox", "mistral", "aquila"]

/-! ## Chat handler (`chat_handler.cpp`) -/

/-- A chat message (role, content), as extracted from the gRPC request. -/
structure Message where
  role : String
  content : String
deriving DecidableEq, Repr

/-- Embeds `SamplingParams` as populated by
`grpc_request_to_sampling_params`; fields that the request leaves unset keep
their defaults, modelled as `none`. -/
structure SamplingParams where
  max_tokens : Option ℕ := none
  n : Option ℕ := none
  frequency_penalty : Option ℚ := none
  presence_penalty : Option ℚ := none
  repetition_penalty : Option ℚ := none
  temperature : Option ℚ := none
  top_p : Option ℚ := none
  top_k : Option ℤ := none
  skip_special_tokens : Option Bool := none
  ignore_eos : Option Bool := none
  stop : List String := []
  stop_token_ids : List ℤ := []
deriving DecidableEq, Repr

/-- Embeds `proto::ChatRequest` with proto3 optional fields as `Option`. -/
structure ChatRequest where
  model : String
  messages : List Message
  priority : ℕ
  stream : Bool
  max_tokens : Option ℕ := none
  n : Option ℕ := none
  frequency_penalty : Option ℚ := none
  presence_penalty : Option ℚ := none
  repetition_penalty : Option ℚ := none
  temperature : Option ℚ := none
  top_p : Option ℚ := none
  top_k : Option ℤ := none
  skip_special_tokens : Option Bool := none
  ignore_eos : Option Bool := none
  stop : List String := []
  stop_token_ids : List ℤ := []
deriving DecidableEq, Repr

/-- Embeds `grpc_request_to_sampling_params` (chat_handler.cpp): copy each
field that the request sets. -/
def grpc_request_to_sampling_params (request : ChatRequest) : SamplingParams :=
  { max_tokens := request.max_tokens
    n := request.n
    frequency_penalty := request.frequency_penalty
    presence_penalty := request.presence_penalty
    repetition_penalty := request.repetition_penalty
    temperature := request.temperature
    top_p := request.top_p
    top_k := request.top_k
    skip_special_tokens := request.skip_special_tokens
    ignore_eos := request.ignore_eos
    stop := request.stop
    stop_token_ids := request.stop_token_ids }

/-- gRPC status codes that the handler can finish a call with. -/
inductive GrpcStatusCode where
  | ok
  | cancelled_code
  | unknown
  | invalid_argument
  | not_found
  | internal
deriving DecidableEq, Repr

/-- One request handed to `LLMHandler::schedule_chat_async`. -/
structure ScheduledChat where
  messages : List Message
  sp : SamplingParams
  priority : ℕ
  stream : Bool
deriving DecidableEq, Repr

/-- The observable outcome of `ChatHandler::chat_async` on one call. -/
inductive ChatCallResult where
  | finished_with_error (code : GrpcStatusCode) (message : String)
  | scheduled
deriving DecidableEq, Repr

/-- Embeds `ChatHandler::chat_async` (chat_handler.cpp): if the request's
model is not in the handler's configured model set, finish the call with
`NOT_FOUND` / "Model not supported" and return; otherwise convert the request
and hand it to `schedule_chat_async`.  The scheduler backlog is threaded
explicitly as a list; the error path leaves it untouched. -/
def ChatHandler.chat_async (models : List String) (req : ChatRequest)
    (sched : List ScheduledChat) : ChatCallResult × List ScheduledChat :=
  if req.model ∈ models then
    (.scheduled,
     sched ++ [⟨req.messages, grpc_request_to_sampling_params req,
                req.priority, req.stream⟩])
  else
    (.finished_with_error .not_found "Model not supported", sched)

/-! ## Streaming deltas (`send_delta_to_client`, chat_handler.cpp) -/

/-- Embeds `SequenceOutput`: one sequence's incremental output inside a
`RequestOutput`. -/
structure SequenceOutput where
  index : ℕ
  text : String
  finish_reason : Option String
deriving DecidableEq, Repr

/-- One `proto::ChatResponse` chunk written to the client, reduced to the
fields that vary between chunks (object, id, created and model are constant
within a call). -/
structure DeltaChunk where
  index : ℕ
  role : Option String
  content : Option String
  finish_reason : Option String
deriving DecidableEq, Repr

/-- The chunk announcing a sequence: role "assistant" with empty content. -/
def roleChunk (i : ℕ) : DeltaChunk := ⟨i, some "assistant", some "", none⟩

/-- A chunk carrying generated text for sequence `i`. -/
def contentChunk (i : ℕ) (t : String) : DeltaChunk := ⟨i, none, some t, none⟩

/-- A chunk carrying the finish reason for sequence `i`. -/
def finishChunk (i : ℕ) (r : String) : DeltaChunk := ⟨i, none, none, some r⟩

/-- Embeds the body of the `for (const auto& seq_output : output.outputs)`
loop of `send_delta_to_client`: first, if the index has not been announced,
a role chunk with empty content is written and the index recorded; then a
content chunk if the text is non-empty; then a finish-reason chunk if set.
Writes are modelled as always accepted by the client. -/
def send_delta_one (sent : List ℕ) (o : SequenceOutput) :
    List DeltaChunk × List ℕ :=
  ((if o.index ∈ sent then ([] : List DeltaChunk) else [roleChunk o.index]) ++
   (if o.text = "" then ([] : List DeltaChunk)
    else [contentChunk o.index o.text]) ++
   (match o.finish_reason with
    | some r => [finishChunk o.index r]
    | none => []),
   if o.index ∈ sent then sent else o.index :: sent)

/-- Embeds `send_delta_to_client` (chat_handler.cpp): process each
`SequenceOutput` of one `RequestOutput` in order, threading the
`first_message_sent` set. -/
def send_delta_to_client (sent : List ℕ) :
    List SequenceOutput → List DeltaChunk × List ℕ
  | [] => ([], sent)
  | o :: rest =>
    let p := send_delta_one sent o
    let q := send_delta_to_client p.2 rest
    (p.1 ++ q.1, q.2)

/-- The stream of chunks produced by the `chat_async` callback over a whole
streamed request: the per-call `first_message_sent` state persists across the
successive `RequestOutput` deliveries. -/
def stream_deltas (sent : List ℕ) :
    List (List SequenceOutput) → List DeltaChunk × List ℕ
  | [] => ([], sent)
  | outs :: rest =>
    let p := send_delta_to_client sent outs
    let q := stream_deltas p.2 rest
    (p.1 ++ q.1, q.2)

/-- Whether a chunk belongs to sequence index `i`. -/
def chunkHasIndex (i : ℕ) (c : DeltaChunk) : Bool := c.index == i

/-- Whether a chunk is a role-announcement chunk. -/
def isRoleChunk (c : DeltaChunk) : Bool := c.role.isSome

end llm

namespace llm.llama2

/-- Embeds the fields of `InputParameters` that the llama2 forward pass reads
for row selection: the prefill/decode split point and the logits-row indices.
The field name keeps the source's spelling. -/
structure InputParameters where
  num_prompt_tokens : ℕ
  last_token_indicies : List ℕ
deriving DecidableEq, Repr

/-- Embeds the row partition of `llm::llama2::AttentionImpl::forward`: after
the per-row projections (which keep rows in place), rows
`[0, num_prompt_tokens)` of the token tensor are handed to
`attention::varlen_masked_self_attention` and rows
`[num_prompt_tokens, num_tokens)` to
`attention::single_token_masked_self_attention`; the two slices of the output
tensor are written disjointly and concatenated.  The external attention
kernels are abstracted as functions on the row lists. -/
def AttentionImpl.forward_rows {V : Type} (varlen_attn single_token_attn : List V → List V)
    (x : List V) (num_prompt_tokens : ℕ) : List V :=
  varlen_attn (x.take num_prompt_tokens) ++ single_token_attn (x.drop num_prompt_tokens)

/-- Modelled from the spec: the Batch Builder (§4.5) implementation is not in
the source tree given here; the spec lays out each selected prefill Sequence's
prompt tokens first, followed by one token per decode Sequence. -/
structure BatchPlan where
  prefill_token_spans : List (List ℕ)
  decode_tokens : List ℕ
deriving DecidableEq, Repr

/-- The dense `token_ids` tensor of a `BatchPlan`: the prefill spans in order,
then the decode tokens. -/
def BatchPlan.token_ids (p : BatchPlan) : List ℕ :=
  p.prefill_token_spans.flatten ++ p.decode_tokens

/-- Total number of prefill tokens of a `BatchPlan`. -/
def BatchPlan.num_prompt_tokens (p : BatchPlan) : ℕ :=
  (p.prefill_token_spans.map List.length).sum

/-- The per-batch pieces of `llm::llama2::ModelImpl` that the forward pass
composes: the embedding lookup (rowwise), the transformer blocks (each a
function on the whole row stack, with positions and KV-cache plumbing folded
in), the final `RMSNorm` (rowwise) and the vocab projection `output_`
(rowwise). -/
structure ModelOps (V W : Type) where
  tok_embeddings : ℕ → V
  layers : List (List V → List V)
  norm : V → V
  output : V → W

/-- Embeds `torch::Tensor::index_select(0, idx)`: pick the listed rows.  Rows
out of range yield the default `d` (the C++ call requires in-range indices). -/
def index_select {V : Type} (h : List V) (idx : List ℕ) (d : V) : List V :=
  idx.map (fun i => h.getD i d)

/-- The hidden states of `ModelImpl::forward` before row selection:
embedding, the layer stack, then the final norm. -/
def ModelImpl.hidden_states {V W : Type} (M : ModelOps V W) (tokens : List ℕ) : List V :=
  (M.layers.foldl (fun h layer => layer h) (tokens.map M.tok_embeddings)).map M.norm

/-- Embeds `llm::llama2::ModelImpl::forward`: compute hidden states, select
the rows listed in `input_params.last_token_indicies`
(`h.index_select(0, last_token_indicies)`), then apply the vocab projection
`output_` to exactly those rows to obtain the logits. -/
def ModelImpl.forward {V W : Type} (M : ModelOps V W) (tokens : List ℕ)
    (input_params : InputParameters) (d : V) : List W :=
  (index_select (ModelImpl.hidden_states M tokens)
      input_params.last_token_indicies d).map M.output

end llm.llama2

namespace llm.detail

/-- Embeds `torch::arange(0, stop, 2)`: the list `[0, 2, 4, ...]` with
`⌈stop/2⌉` entries. -/
def arange_step2 (stop : ℕ) : List ℕ := (List.range ((stop + 1) / 2)).map (· * 2)

/-- Embeds `llm::detail::compute_default_inv_freq` (pos_embedding.cpp):
`1.0 / torch::pow(theta, torch::arange(0, rotary_dim, 2) / rotary_dim)`.
The `CHECK(rotary_dim % 2 == 0)` failure is modelled as `none`; float32
arithmetic is modelled over the reals. -/
noncomputable def compute_default_inv_freq (rotary_dim : ℕ) (theta : ℝ) :
    Option (List ℝ) :=
  if rotary_dim % 2 = 0 then
    some ((arange_step2 rotary_dim).map
      (fun (i : ℕ) => 1 / theta ^ ((i : ℝ) / (rotary_dim : ℝ))))
  else none

end llm.detail

namespace llm.core

/-! ## Block Allocator — Modelled from the spec (§4.1)

The Block Allocator implementation is not in the source tree given here; it is
modelled from the spec: a LIFO free list over a fixed pool, `allocate(count)`
returning `count` ids or failing with `OutOfBlocks`, and `release` returning
blocks to the head of the free list.  Block sharing via `fork`/ref-counts is
not needed by any checked claim and is left out. -/

/-- The internal allocator error (spec §7): never surfaced to a sink. -/
inductive AllocError where
  | outOfBlocks
deriving DecidableEq, Repr

/-- Modelled from the spec: the Block Allocator state, a LIFO free list of
block ids over a pool of `num_total` blocks. -/
structure BlockAllocator where
  free_list : List ℕ
  num_total : ℕ
deriving DecidableEq, Repr

/-- Modelled from the spec: `num_free()` observation. -/
def BlockAllocator.num_free (a : BlockAllocator) : ℕ := a.free_list.length

/-- Modelled from the spec: `allocate(count)` takes `count` ids from the head
of the LIFO free list, or fails with `OutOfBlocks` when fewer are free,
leaving the allocator unchanged. -/
def BlockAllocator.allocate (a : BlockAllocator) (count : ℕ) :
    Except AllocError (List ℕ) × BlockAllocator :=
  if count ≤ a.free_list.length then
    (.ok (a.free_list.take count), { a with free_list := a.free_list.drop count })
  else
    (.error .outOfBlocks, a)

/-- Modelled from the spec: `release(blocks)` returns block ids to the head of
the LIFO free list (recently freed ids are reused first). -/
def BlockAllocator.release (a : BlockAllocator) (blocks : List ℕ) : BlockAllocator :=
  { a with free_list := blocks ++ a.free_list }

/-! ## Sequence — Modelled from the spec (§3, §4.2) -/

/-- Finish reasons of a Sequence (spec §4.2). -/
inductive FinishReason where
  | stop
  | length
  | cancelled_reason
  | error
deriving DecidableEq, Repr

/-- Modelled from the spec: the per-generation Sequence state used by the
checked claims. -/
structure Sequence where
  tokens : List ℕ
  num_prompt_tokens : ℕ
  block_table : List ℕ
  cumulative_logprob : ℚ
  finish_reason : Option FinishReason
  index : ℕ
deriving DecidableEq, Repr

/-- Modelled from the spec: `append_token(id, logprob)` appends the sampled
token and accumulates its log-probability. -/
def Sequence.append_token (s : Sequence) (id : ℕ) (logprob : ℚ) : Sequence :=
  { s with tokens := s.tokens ++ [id],
           cumulative_logprob := s.cumulative_logprob + logprob }

/-- Modelled from the spec: `num_blocks_needed(block_size)` =
`ceil((tokens.len + 1) / block_size) - block_table.len`, the blocks required
to admit one more token (an int; non-positive means no allocation needed). -/
def Sequence.num_blocks_needed (s : Sequence) (block_size : ℕ) : ℤ :=
  (((s.tokens.length + 1 + block_size - 1) / block_size : ℕ) : ℤ) -
    (s.block_table.length : ℤ)

/-- Modelled from the spec: number of generated (non-prompt) tokens. -/
def Sequence.tokens_generated (s : Sequence) : ℕ :=
  s.tokens.length - s.num_prompt_tokens

/-- Modelled from the spec: the length-normalized score
`cumulative_logprob / tokens_generated` used to rank best-of siblings. -/
def Sequence.normalized_logprob (s : Sequence) : ℚ :=
  s.cumulative_logprob / (s.tokens_generated : ℚ)

/-- The capacity invariant of spec §3: the block table covers all tokens. -/
def block_cap_inv (block_size : ℕ) (s : Sequence) : Prop :=
  s.tokens.length ≤ s.block_table.length * block_size

/-! ## Scheduler pools — Modelled from the spec (§4.5, §4.6)

The Scheduler implementation is not in the source tree given here.  The pool
state machine below models, from the spec, the operations that append tokens
or change a block table: prefill admission (blocks for the whole prompt
allocated up front, §4.5 step 2), one decode append (allocate
`num_blocks_needed`, then append, §4.5 step 1), preemption in recompute mode
(drop blocks and tokens past the prompt, re-enter waiting, §4.6), and release
of finished sequences (§4.6 step 5). -/

/-- Modelled from the spec: the scheduler-owned pools and the allocator.
Sequences in `running` hold KV blocks; `waiting` sequences do not yet. -/
structure SchedState where
  allocator : BlockAllocator
  waiting : List Sequence
  running : List Sequence
deriving DecidableEq, Repr

/-- Modelled from the spec (§4.5 prefill pass): admit the first waiting
sequence, allocating all `ceil(prompt_len / block_size)` blocks up front; on
`OutOfBlocks` nothing changes. -/
def SchedState.admit_one (block_size : ℕ) (st : SchedState) : SchedState :=
  match st.waiting with
  | [] => st
  | s :: rest =>
    let need := (s.tokens.length + block_size - 1) / block_size
    match st.allocator.allocate need with
    | (.ok ids, a') =>
      ⟨a', rest, st.running ++ [{ s with block_table := ids }]⟩
    | (.error _, _) => st

/-- Modelled from the spec (§4.5 decode pass and §4.6 step 4): for the first
running sequence, reserve `num_blocks_needed` blocks and append the sampled
token; on `OutOfBlocks` nothing changes (the scheduler preempts instead). -/
def SchedState.append_token_step (block_size : ℕ) (tok : ℕ) (lp : ℚ)
    (st : SchedState) : SchedState :=
  match st.running with
  | [] => st
  | s :: rest =>
    let need := (s.num_blocks_needed block_size).toNat
    match st.allocator.allocate need with
    | (.ok ids, a') =>
      ⟨a', st.waiting,
       rest ++ [({ s with block_table := s.block_table ++ ids }).append_token tok lp]⟩
    | (.error _, _) => st

/-- Modelled from the spec (§4.6 preemption, recompute mode): evict the
youngest running sequence — release its blocks, drop tokens past the prompt,
re-enter `waiting` to re-prefill later. -/
def SchedState.preempt_one (st : SchedState) : SchedState :=
  match st.running.getLast? with
  | none => st
  | some s =>
    ⟨st.allocator.release s.block_table,
     st.waiting ++ [{ s with tokens := s.tokens.take s.num_prompt_tokens,
                             block_table := [] }],
     st.running.dropLast⟩

/-- Modelled from the spec (§4.6 step 5): remove every finished sequence from
`running`, releasing its blocks. -/
def SchedState.release_finished (st : SchedState) : SchedState :=
  ⟨(st.running.filter (fun s => s.finish_reason.isSome)).foldl
      (fun a s => a.release s.block_table) st.allocator,
   st.waiting,
   st.running.filter (fun s => s.finish_reason.isNone)⟩

/-- The scheduler-state capacity invariant: every sequence holding KV blocks
(the `running` pool) satisfies `tokens.len ≤ block_table.len * block_size`. -/
def SchedState.BlockCapInv (block_size : ℕ) (st : SchedState) : Prop :=
  ∀ s ∈ st.running, block_cap_inv block_size s

/-- Sink-visible output event kinds (spec §4.3, §7).  The surfaced error
kinds are exactly `InvalidRequest`, `EngineError`, `Cancelled` and
`InternalError`; `OutOfBlocks` has no event shape. -/
inductive OutputEventKind where
  | delta
  | final
  | invalid_request_error
  | engine_error
  | cancelled_event
  | internal_error
deriving DecidableEq, Repr

/-- Modelled from the spec (§4.6, §7): the scheduler's reaction to an
`OutOfBlocks` allocation failure — preempt one running sequence and emit
nothing to any output sink. -/
def SchedState.handle_out_of_blocks (st : SchedState) :
    SchedState × List OutputEventKind :=
  (st.preempt_one, [])

/-! ## Best-of selection — Modelled from the spec (§4.3) -/

/-- The descending ranking relation on siblings: higher length-normalized
cumulative log-probability first. -/
def ranked_above (a b : Sequence) : Prop :=
  b.normalized_logprob ≤ a.normalized_logprob

instance : DecidableRel ranked_above := fun a b =>
  inferInstanceAs (Decidable (b.normalized_logprob ≤ a.normalized_logprob))

instance : IsTotal Sequence ranked_above :=
  ⟨fun a b => (le_total b.normalized_logprob a.normalized_logprob).imp id id⟩

instance : IsTrans Sequence ranked_above :=
  ⟨fun _ _ _ hab hbc => le_trans hbc hab⟩

/-- Modelled from the spec: when `best_of > n`, on completion the Request
selects the top-`n` finished siblings by `cumulative_logprob /
tokens_generated` (length-normalized) and discards the rest. -/
def Request.select_outputs (seqs : List Sequence) (n : ℕ) : List Sequence :=
  (seqs.insertionSort ranked_above).take n

/-- The siblings a best-of selection discards. -/
def Request.discarded_outputs (seqs : List Sequence) (n : ℕ) : List Sequence :=
  (seqs.insertionSort ranked_above).drop n

end llm.core

namespace llm.sampling

/-! ## Sampling Pipeline — Modelled from the spec (§4.4, §5)

The Sampling Pipeline implementation is not in the source tree given here.
It is modelled from the spec: per row, logit masking, repetition penalty,
frequency penalty, presence penalty, then either greedy argmax (temperature
zero, ties broken by the smaller token id) or temperature scaling, top-k,
top-p and a multinomial draw from the seeded RNG.  A logit of `⊥ : WithBot ℚ`
stands for the masked value `-∞`; real-valued softmax weights use `Real.exp`.
The engine is the spec's opaque per-sequence `forward` contract (§6): a
function from the token history to a logits row. -/

/-- Modelled from the spec: the per-sequence generation configuration — the
sampling params the Sequence carries unchanged to the pipeline, plus the
opaque engine. -/
structure GenConfig where
  temperature : ℚ
  top_k : ℕ
  top_p : ℚ
  repetition_penalty : ℚ
  frequency_penalty : ℚ
  presence_penalty : ℚ
  logit_bias_mask : List ℕ
  model : List ℕ → List ℚ

/-- Modelled from the spec (step 1): disallowed token ids get `-∞`. -/
def apply_logit_mask (mask : List ℕ) (logits : List (WithBot ℚ)) :
    List (WithBot ℚ) :=
  logits.mapIdx (fun i v => if i ∈ mask then ⊥ else v)

/-- Modelled from the spec (step 2): for every token id in the history,
divide positive logits by `repetition_penalty` and multiply negatives by
it. -/
def apply_repetition_penalty (rp : ℚ) (history : List ℕ)
    (logits : List (WithBot ℚ)) : List (WithBot ℚ) :=
  logits.mapIdx (fun i v =>
    if i ∈ history then v.map (fun x => if 0 < x then x / rp else x * rp) else v)

/-- Modelled from the spec (step 3): subtract
`frequency_penalty * count_in_history` from each logit. -/
def apply_frequency_penalty (fp : ℚ) (history : List ℕ)
    (logits : List (WithBot ℚ)) : List (WithBot ℚ) :=
  logits.mapIdx (fun i v => v.map (fun x => x - fp * (history.count i : ℚ)))

/-- Modelled from the spec (step 4): subtract `presence_penalty` from logits
of any token present in the history. -/
def apply_presence_penalty (pp : ℚ) (history : List ℕ)
    (logits : List (WithBot ℚ)) : List (WithBot ℚ) :=
  logits.mapIdx (fun i v => if i ∈ history then v.map (fun x => x - pp) else v)

/-- The logits row for the current history after steps 1–4. -/
def penalized_logits (cfg : GenConfig) (history : List ℕ) : List (WithBot ℚ) :=
  apply_presence_penalty cfg.presence_penalty history
    (apply_frequency_penalty cfg.frequency_penalty history
      (apply_repetition_penalty cfg.repetition_penalty history
        (apply_logit_mask cfg.logit_bias_mask
          ((cfg.model history).map (fun x => ((x : ℚ) : WithBot ℚ))))))

/-- Modelled from the spec (step 5, temperature 0): greedy argmax with ties
broken by the smaller token id — a later index replaces the running best only
on a strictly larger logit. -/
def argmax_with_min_tie (l : List (WithBot ℚ)) : ℕ :=
  (l.foldl
    (fun (acc : ℕ × WithBot ℚ × ℕ) v =>
      if acc.2.1 < v then (acc.2.2, v, acc.2.2 + 1) else (acc.1, acc.2.1, acc.2.2 + 1))
    (0, ⊥, 0)).1

/-- The token the greedy (temperature 0) path picks for a history. -/
def greedy_next (cfg : GenConfig) (history : List ℕ) : ℕ :=
  argmax_with_min_tie (penalized_logits cfg history)

/-- Modelled from the spec (§5): the seeded RNG, a 64-bit linear congruential
generator stepped once per stochastic draw. -/
def rng_next (s : ℕ) : ℕ := (6364136223846793005 * s + 1442695040888963407) % 2 ^ 64

/-- The uniform variate in `[0, 1)` derived from an RNG state. -/
noncomputable def uniform_of (s : ℕ) : ℝ := ((s % 2 ^ 64 : ℕ) : ℝ) / 2 ^ 64

/-- The softmax weight of one (possibly masked) logit: `-∞` weighs zero. -/
noncomputable def exp_weight (v : WithBot ℚ) : ℝ :=
  v.recBotCoe 0 (fun x => Real.exp x)

/-- Modelled from the spec (step 5, temperature > 0): divide logits by the
temperature. -/
def apply_temperature (t : ℚ) (logits : List (WithBot ℚ)) : List (WithBot ℚ) :=
  logits.map (fun v => v.map (fun x => x / t))

/-- Modelled from the spec (step 6): keep the `k` largest logits, set the
others to `-∞`; `k = 0` disables the filter.  On ties at the boundary the
whole tied class is kept. -/
def top_k_filter (k : ℕ) (logits : List (WithBot ℚ)) : List (WithBot ℚ) :=
  if k = 0 then logits
  else
    let sorted := logits.insertionSort (fun a b => b ≤ a)
    let thr := sorted.getD (k - 1) ⊥
    logits.map (fun v => if thr ≤ v then v else ⊥)

open Classical in
/-- Modelled from the spec (step 7): the size of the smallest prefix of the
descending sort whose softmax mass reaches `top_p` times the total mass. -/
noncomputable def nucleus_cutoff (p : ℚ) (logits : List (WithBot ℚ)) : ℕ :=
  let sorted := logits.insertionSort (fun a b => b ≤ a)
  if h : ∃ m, (p : ℝ) * ((sorted.map exp_weight).sum) ≤
      (((sorted.take m).map exp_weight).sum) then Nat.find h else logits.length

/-- Modelled from the spec (step 7): keep the smallest descending prefix with
softmax mass at least `top_p`, set the rest to `-∞`. -/
noncomputable def top_p_filter (p : ℚ) (logits : List (WithBot ℚ)) :
    List (WithBot ℚ) :=
  let sorted := logits.insertionSort (fun a b => b ≤ a)
  let thr := sorted.getD (nucleus_cutoff p logits - 1) ⊥
  logits.map (fun v => if thr ≤ v then v else ⊥)

open Classical in
/-- Modelled from the spec (step 8): the multinomial draw — the smallest
index whose cumulative softmax weight covers `u` times the total mass. -/
noncomputable def multinomial_draw (weights : List ℝ) (u : ℝ) : ℕ :=
  if h : ∃ i, u * weights.sum ≤ ((weights.take (i + 1)).sum) then Nat.find h
  else weights.length

/-- The token the stochastic (temperature > 0) path picks for a history and
RNG state: steps 5–8 of the pipeline. -/
noncomputable def sampled_next (cfg : GenConfig) (history : List ℕ) (rng : ℕ) : ℕ :=
  multinomial_draw
    ((top_p_filter cfg.top_p
        (top_k_filter cfg.top_k
          (apply_temperature cfg.temperature (penalized_logits cfg history)))).map
      exp_weight)
    (uniform_of rng)

/-- Modelled from the spec (§4.6 step 4, §5): one generation step of a
Sequence — the pipeline turns the engine's logits row into exactly one next
token; the greedy path leaves the RNG untouched, the stochastic path draws
from it and advances it. -/
inductive GenStep (cfg : GenConfig) : List ℕ × ℕ → List ℕ × ℕ → Prop where
  | greedy (tokens : List ℕ) (rng : ℕ) :
      cfg.temperature = 0 →
      GenStep cfg (tokens, rng) (tokens ++ [greedy_next cfg tokens], rng)
  | sampled (tokens : List ℕ) (rng : ℕ) :
      cfg.temperature ≠ 0 →
      GenStep cfg (tokens, rng)
        (tokens ++ [sampled_next cfg tokens rng], rng_next rng)

/-- Modelled from the spec (§5): `k` strictly sequential generation steps
from an initial prompt-and-seed state. -/
inductive GenRun (cfg : GenConfig) (init : List ℕ × ℕ) :
    ℕ → List ℕ × ℕ → Prop where
  | zero : GenRun cfg init 0 init
  | succ {k : ℕ} {s t : List ℕ × ℕ} :
      GenRun cfg init k s → GenStep cfg s t → GenRun cfg init (k + 1) t

end llm.sampling

/-- A tiny concrete model-ops instance used to evaluate the llama2 forward
embedding on a concrete batch. -/
def llm.llama2.exampleModelOps : llm.llama2.ModelOps ℚ ℚ :=
  ⟨fun t => (t : ℚ), [fun h => h.map (fun x => x + 1)], fun v => v, fun v => 2 * v⟩

/-- A tiny concrete greedy generation configuration used to evaluate the
generation relation on a concrete run. -/
def llm.sampling.exampleConfig : llm.sampling.GenConfig :=
  { temperature := 0
    top_k := 0
    top_p := 1
    repetition_penalty := 1
    frequency_penalty := 0
    presence_penalty := 0
    logit_bias_mask := []
    model := fun _ => [0, 1] }

/-- Example best-of siblings used to evaluate the selection on a concrete
request: each finished, one generated token, distinct normalized scores. -/
def llm.core.exSeqA : llm.core.Sequence :=
  ⟨[9, 3], 1, [0], -1, some .length, 0⟩

/-- Second example sibling, the best normalized score of the three. -/
def llm.core.exSeqB : llm.core.Sequence :=
  ⟨[9, 5], 1, [1], -1/2, some .length, 1⟩

/-- Third example sibling, the worst normalized score of the three. -/
def llm.core.exSeqC : llm.core.Sequence :=
  ⟨[9, 7], 1, [2], -2, some .length, 2⟩

/-- Example scheduler state used to evaluate the pool operations. -/
def llm.core.exState : llm.core.SchedState :=
  ⟨⟨[4, 5, 6], 8⟩, [⟨[1, 2, 3], 3, [], 0, none, 0⟩],
   [⟨[1, 2], 2, [7], -1, none, 0⟩]⟩

/-! # Theorems -/

/-- Claim C9: `CausalLM::create` matches `model_type` case-insensitively — two
spellings with the same lower-casing yield the same model family — and for
every `model_type` outside the supported set
`{llama2, llama, gpt2, gpt_neox, mistral, aquila}` it returns `none`
(`nullptr`) rather than raising an error. -/
theorem create_case_insensitive_unsupported_none :
    (∀ s1 s2 : String, llm.str_tolower s1 = llm.str_tolower s2 →
      llm.CausalLM.create s1 = llm.CausalLM.create s2) ∧
    (∀ s : String, llm.str_tolower s ∉ llm.supported_model_types →
      llm.CausalLM.create s = none) := by
  refine ⟨?_, ?_⟩
  · intro s1 s2 h
    simp only [llm.CausalLM.create, llm.iequals, h]
  · intro s h
    simp only [llm.supported_model_types, List.mem_cons, List.not_mem_nil,
      or_false, not_or] at h
    have kk : ∀ t : String, llm.str_tolower t = t → llm.str_tolower s ≠ t →
        llm.iequals s t = false := by
      intro t ht hne
      simp only [llm.iequals, beq_eq_false_iff_ne, ht, ne_eq]
      exact hne
    simp only [llm.CausalLM.create,
      kk "llama2" rfl h.1, kk "llama" rfl h.2.1, kk "gpt2" rfl h.2.2.1,
      kk "gpt_neox" rfl h.2.2.2.1, kk "mistral" rfl h.2.2.2.2.1,
      kk "aquila" rfl h.2.2.2.2.2, Bool.false_eq_true, if_false]

/-- Concrete check of C9: `"LLaMA2"` and `"llama2"` dispatch identically, and
the unsupported `"gptj"` yields `none`. -/
theorem create_case_insensitive_unsupported_none_witness :
    llm.CausalLM.create "LLaMA2" = llm.CausalLM.create "llama2" ∧
    llm.CausalLM.create "gptj" = none :=
  ⟨create_case_insensitive_unsupported_none.1 "LLaMA2" "llama2" (by decide),
   create_case_insensitive_unsupported_none.2 "gptj" (by decide)⟩

/-- Claim C8: a `ChatRequest` whose model is not in the handler's configured model
set makes `chat_async` finish the call with gRPC `NOT_FOUND` and message
"Model not supported" without scheduling anything — the scheduler backlog is
returned unchanged. -/
theorem chat_async_unknown_model_not_found (models : List String)
    (req : llm.ChatRequest) (sched : List llm.ScheduledChat)
    (h : req.model ∉ models) :
    llm.ChatHandler.chat_async models req sched =
      (.finished_with_error .not_found "Model not supported", sched) := by
  simp only [llm.ChatHandler.chat_async, if_neg h]

/-- Concrete check of C8: a request for the unconfigured model `"llama"`
against a handler serving only `"gpt2"`. -/
theorem chat_async_unknown_model_not_found_witness :
    llm.ChatHandler.chat_async ["gpt2"]
        { model := "llama", messages := [], priority := 0, stream := false } [] =
      (.finished_with_error .not_found "Model not supported", []) :=
  chat_async_unknown_model_not_found ["gpt2"]
    { model := "llama", messages := [], priority := 0, stream := false } []
    (by decide)

/-- Claim C10: for even `rotary_dim ≥ 2` and `theta > 0`,
`compute_default_inv_freq` succeeds (the CHECK branch is unreachable) and
returns exactly `rotary_dim / 2` entries, the `i`-th being
`theta ^ (-(2 i) / rotary_dim)`. -/
theorem compute_default_inv_freq_even_spec (rotary_dim : ℕ) (theta : ℝ)
    (heven : rotary_dim % 2 = 0) (hmin : 2 ≤ rotary_dim) (htheta : 0 < theta) :
    llm.detail.compute_default_inv_freq rotary_dim theta =
      some ((List.range (rotary_dim / 2)).map
        (fun i => theta ^ (-(((2 * i : ℕ) : ℝ) / (rotary_dim : ℝ))))) := by
  unfold llm.detail.compute_default_inv_freq llm.detail.arange_step2
  rw [if_pos heven]
  have hhalf : (rotary_dim + 1) / 2 = rotary_dim / 2 := by omega
  rw [hhalf, List.map_map]
  congr 1
  apply List.map_congr_left
  intro i _
  simp only [Function.comp_apply]
  rw [Real.rpow_neg htheta.le, one_div]
  congr 2
  push_cast
  ring

/-- Concrete check of C10 at `rotary_dim = 4`, `theta = 2`. -/
theorem compute_default_inv_freq_even_spec_witness :
    llm.detail.compute_default_inv_freq 4 2 =
      some ((List.range (4 / 2)).map
        (fun i => (2 : ℝ) ^ (-(((2 * i : ℕ) : ℝ) / ((4 : ℕ) : ℝ))))) :=
  compute_default_inv_freq_even_spec 4 2 (by norm_num) (by norm_num) (by norm_num)

/-- Helper: `getD` of a mapped list at an in-range position. -/
theorem getD_map_of_lt {α β : Type _} (f : α → β) (l : List α) (j : ℕ)
    (hj : j < l.length) (a : α) (b : β) :
    (l.map f).getD j b = f (l.getD j a) := by
  rw [List.getD_eq_getElem (l.map f) b (by simpa using hj),
    List.getD_eq_getElem l a hj, List.getElem_map]

/-- Claim C3: the logits of `ModelImpl::forward` contain exactly one row per entry
of `last_token_indicies` — row `j` is the vocab projection of the final
hidden-state row at position `last_token_indicies[j]` — and the logits depend
only on the hidden-state rows at those positions, so no other token position
contributes a sampled token. -/
theorem forward_selects_last_token_rows {V W : Type} (M : llm.llama2.ModelOps V W)
    (tokens : List ℕ) (ip : llm.llama2.InputParameters) (d : V) :
    (llm.llama2.ModelImpl.forward M tokens ip d).length =
        ip.last_token_indicies.length ∧
    (∀ j, j < ip.last_token_indicies.length →
      (llm.llama2.ModelImpl.forward M tokens ip d).getD j (M.output d) =
        M.output ((llm.llama2.ModelImpl.hidden_states M tokens).getD
          (ip.last_token_indicies.getD j 0) d)) ∧
    (∀ h h' : List V,
      (∀ i ∈ ip.last_token_indicies, h.getD i d = h'.getD i d) →
      (llm.llama2.index_select h ip.last_token_indicies d).map M.output =
        (llm.llama2.index_select h' ip.last_token_indicies d).map M.output) := by
  refine ⟨?_, ?_, ?_⟩
  · simp [llm.llama2.ModelImpl.forward, llm.llama2.index_select]
  · intro j hj
    unfold llm.llama2.ModelImpl.forward llm.llama2.index_select
    rw [List.map_map,
      getD_map_of_lt _ ip.last_token_indicies j hj 0 (M.output d)]
    simp
  · intro h h' hagree
    unfold llm.llama2.index_select
    rw [List.map_map, List.map_map]
    apply List.map_congr_left
    intro i hi
    simp only [Function.comp_apply, hagree i hi]

/-- Concrete check of C3 on a two-token batch with both rows selected. -/
theorem forward_selects_last_token_rows_witness :
    (llm.llama2.ModelImpl.forward llm.llama2.exampleModelOps [5, 7]
        ⟨1, [0, 1]⟩ 0).getD 0 (llm.llama2.exampleModelOps.output 0) =
      llm.llama2.exampleModelOps.output
        ((llm.llama2.ModelImpl.hidden_states llm.llama2.exampleModelOps
            [5, 7]).getD 0 0) :=
  (forward_selects_last_token_rows llm.llama2.exampleModelOps [5, 7]
      ⟨1, [0, 1]⟩ 0).2.1 0 (by decide)

/-- Claim C2: in every batch plan, the first `num_prompt_tokens` rows of the token
tensor are exactly the prefill tokens and the rows from `num_prompt_tokens`
on are exactly the decode tokens (prefill sequences precede decode sequences);
consequently the llama2 attention forward hands exactly the prefill rows to
the varlen prefill kernel and exactly the decode rows to the single-token
decode kernel. -/
theorem batch_prefill_rows_precede_decode_rows (p : llm.llama2.BatchPlan)
    (varlen_attn single_token_attn : List ℕ → List ℕ) :
    p.token_ids.take p.num_prompt_tokens = p.prefill_token_spans.flatten ∧
    p.token_ids.drop p.num_prompt_tokens = p.decode_tokens ∧
    llm.llama2.AttentionImpl.forward_rows varlen_attn single_token_attn
        p.token_ids p.num_prompt_tokens =
      varlen_attn p.prefill_token_spans.flatten ++
        single_token_attn p.decode_tokens := by
  have hlen : p.prefill_token_spans.flatten.length = p.num_prompt_tokens := by
    simp [llm.llama2.BatchPlan.num_prompt_tokens, List.length_flatten]
  have htake : p.token_ids.take p.num_prompt_tokens = p.prefill_token_spans.flatten := by
    rw [llm.llama2.BatchPlan.token_ids, ← hlen, List.take_left]
  have hdrop : p.token_ids.drop p.num_prompt_tokens = p.decode_tokens := by
    rw [llm.llama2.BatchPlan.token_ids, ← hlen, List.drop_left]
  exact ⟨htake, hdrop, by
    rw [llm.llama2.AttentionImpl.forward_rows, htake, hdrop]⟩

/-- Helper: the `first_message_sent` set after one sequence output. -/
theorem send_one_mem (sent : List ℕ) (o : llm.SequenceOutput) (i : ℕ) :
    i ∈ (llm.send_delta_one sent o).2 ↔ (i ∈ sent ∨ i = o.index) := by
  unfold llm.send_delta_one
  by_cases h : o.index ∈ sent
  · simp only [if_pos h]
    constructor
    · exact Or.inl
    · rintro (hm | rfl)
      · exact hm
      · exact h
  · simp only [if_neg h, List.mem_cons]
    exact or_comm

/-- Helper: every chunk written for one sequence output carries its index. -/
theorem send_one_chunks_index (sent : List ℕ) (o : llm.SequenceOutput) :
    ∀ c ∈ (llm.send_delta_one sent o).1, c.index = o.index := by
  intro c hc
  unfold llm.send_delta_one at hc
  rcases List.mem_append.mp hc with hAB | hC
  · rcases List.mem_append.mp hAB with hA | hB
    · by_cases h1 : o.index ∈ sent
      · rw [if_pos h1] at hA
        exact absurd hA (List.not_mem_nil c)
      · rw [if_neg h1] at hA
        rw [List.mem_singleton.mp hA]
        rfl
    · by_cases h2 : o.text = ""
      · rw [if_pos h2] at hB
        exact absurd hB (List.not_mem_nil c)
      · rw [if_neg h2] at hB
        rw [List.mem_singleton.mp hB]
        rfl
  · rcases h3 : o.finish_reason with _ | r
    · rw [h3] at hC
      exact absurd hC (List.not_mem_nil c)
    · rw [h3] at hC
      rw [List.mem_singleton.mp hC]
      rfl

/-- Helper: the number of role-announcement chunks for index `i` written for
one sequence output. -/
theorem send_one_role_filter (sent : List ℕ) (o : llm.SequenceOutput) (i : ℕ) :
    ((llm.send_delta_one sent o).1.filter
        (fun c => llm.chunkHasIndex i c && llm.isRoleChunk c)).length
      = if i = o.index ∧ o.index ∉ sent then 1 else 0 := by
  unfold llm.send_delta_one
  rcases h3 : o.finish_reason with _ | r <;>
    by_cases h1 : o.index ∈ sent <;> by_cases h2 : o.text = "" <;>
    by_cases h4 : i = o.index <;>
    simp [h1, h2, h3, h4, llm.roleChunk, llm.contentChunk, llm.finishChunk,
      llm.chunkHasIndex, llm.isRoleChunk, List.filter_append] <;>
    omega

/-- Helper: when index `i` is not yet announced and the output belongs to it,
the very first chunk written for it is the role announcement. -/
theorem send_one_find_eq (sent : List ℕ) (o : llm.SequenceOutput)
    (hnot : o.index ∉ sent) :
    (llm.send_delta_one sent o).1.find? (llm.chunkHasIndex o.index) =
      some (llm.roleChunk o.index) := by
  unfold llm.send_delta_one
  rw [if_neg hnot]
  simp [llm.chunkHasIndex, llm.roleChunk]

/-- Helper: chunks written for other indices never match index `i`. -/
theorem send_one_find_ne (sent : List ℕ) (o : llm.SequenceOutput) (i : ℕ)
    (hne : i ≠ o.index) :
    (llm.send_delta_one sent o).1.find? (llm.chunkHasIndex i) = none := by
  rw [List.find?_eq_none]
  intro c hc
  have := send_one_chunks_index sent o c hc
  simp [llm.chunkHasIndex, this, Ne.symm hne]

/-- Helper: the invariant of `send_delta_to_client` relating announced
indices, role-chunk counts and the first chunk per index. -/
theorem send_core (i : ℕ) (os : List llm.SequenceOutput) :
    ∀ sent : List ℕ,
    (i ∈ (llm.send_delta_to_client sent os).2 ↔
      (i ∈ sent ∨ i ∈ os.map llm.SequenceOutput.index)) ∧
    (i ∈ sent →
      ((llm.send_delta_to_client sent os).1.filter
          (fun c => llm.chunkHasIndex i c && llm.isRoleChunk c)).length = 0) ∧
    (i ∉ sent →
      ((llm.send_delta_to_client sent os).1.filter
          (fun c => llm.chunkHasIndex i c && llm.isRoleChunk c)).length =
        if i ∈ os.map llm.SequenceOutput.index then 1 else 0) ∧
    (i ∉ sent →
      (llm.send_delta_to_client sent os).1.find? (llm.chunkHasIndex i) =
        if i ∈ os.map llm.SequenceOutput.index then some (llm.roleChunk i)
        else none) := by
  induction os with
  | nil =>
    intro sent
    simp [llm.send_delta_to_client]
  | cons o rest ih =>
    intro sent
    have IH := ih (llm.send_delta_one sent o).2
    have hmem1 := send_one_mem sent o i
    have hrole1 := send_one_role_filter sent o i
    refine ⟨?_, ?_, ?_, ?_⟩
    · rw [llm.send_delta_to_client]
      simp only [IH.1, hmem1, List.map_cons, List.mem_cons]
      tauto
    · intro hs
      rw [llm.send_delta_to_client]
      simp only [List.filter_append, List.length_append]
      have hz1 : ((llm.send_delta_one sent o).1.filter
          (fun c => llm.chunkHasIndex i c && llm.isRoleChunk c)).length = 0 := by
        rw [hrole1, if_neg]
        rintro ⟨rfl, hno⟩
        exact hno hs
      have hz2 := IH.2.1 (hmem1.mpr (Or.inl hs))
      omega
    · intro hs
      rw [llm.send_delta_to_client]
      simp only [List.filter_append, List.length_append]
      by_cases hio : i = o.index
      · have hno : o.index ∉ sent := by
          rw [← hio]
          exact hs
        have h1 : ((llm.send_delta_one sent o).1.filter
            (fun c => llm.chunkHasIndex i c && llm.isRoleChunk c)).length = 1 := by
          rw [hrole1, if_pos ⟨hio, hno⟩]
        have h2 := IH.2.1 (hmem1.mpr (Or.inr hio))
        simp only [List.map_cons, List.mem_cons]
        rw [if_pos (Or.inl hio)]
        omega
      · have h1 : ((llm.send_delta_one sent o).1.filter
            (fun c => llm.chunkHasIndex i c && llm.isRoleChunk c)).length = 0 := by
          rw [hrole1, if_neg]
          rintro ⟨h, -⟩
          exact hio h
        have hnotp : i ∉ (llm.send_delta_one sent o).2 := by
          rw [hmem1]
          rintro (h | h)
          · exact hs h
          · exact hio h
        have h2 := IH.2.2.1 hnotp
        simp only [List.map_cons, List.mem_cons]
        by_cases hr : i ∈ rest.map llm.SequenceOutput.index
        · rw [if_pos (Or.inr hr)]
          rw [if_pos hr] at h2
          omega
        · rw [if_neg (by
            rintro (h | h)
            · exact hio h
            · exact hr h)]
          rw [if_neg hr] at h2
          omega
    · intro hs
      rw [llm.send_delta_to_client]
      simp only [List.find?_append]
      by_cases hio : i = o.index
      · have hno : o.index ∉ sent := by
          rw [← hio]
          exact hs
        have h1 : (llm.send_delta_one sent o).1.find? (llm.chunkHasIndex i) =
            some (llm.roleChunk i) := by
          rw [hio]
          exact send_one_find_eq sent o hno
        rw [h1, Option.or_some]
        simp only [List.map_cons, List.mem_cons]
        rw [if_pos (Or.inl hio)]
      · rw [send_one_find_ne sent o i hio, Option.none_or]
        have hnotp : i ∉ (llm.send_delta_one sent o).2 := by
          rw [hmem1]
          rintro (h | h)
          · exact hs h
          · exact hio h
        rw [IH.2.2.2 hnotp]
        simp only [List.map_cons, List.mem_cons]
        by_cases hr : i ∈ rest.map llm.SequenceOutput.index
        · rw [if_pos hr, if_pos (Or.inr hr)]
        · rw [if_neg hr, if_neg (by
            rintro (h | h)
            · exact hio h
            · exact hr h)]

/-- Helper: processing two output batches in sequence concatenates their
chunk streams and threads the announced-index state. -/
theorem send_delta_to_client_append (a b : List llm.SequenceOutput) :
    ∀ sent : List ℕ,
    llm.send_delta_to_client sent (a ++ b) =
      ((llm.send_delta_to_client sent a).1 ++
        (llm.send_delta_to_client (llm.send_delta_to_client sent a).2 b).1,
       (llm.send_delta_to_client (llm.send_delta_to_client sent a).2 b).2) := by
  induction a with
  | nil =>
    intro sent
    simp [llm.send_delta_to_client]
  | cons o rest ih =>
    intro sent
    simp only [List.cons_append, llm.send_delta_to_client, List.append_eq, ih,
      List.append_assoc]

/-- Helper: the chunk stream over a whole streamed request equals one pass
of `send_delta_to_client` over the flattened sequence outputs. -/
theorem stream_deltas_eq_flatten (outs : List (List llm.SequenceOutput)) :
    ∀ sent : List ℕ,
    llm.stream_deltas sent outs = llm.send_delta_to_client sent outs.flatten := by
  induction outs with
  | nil =>
    intro sent
    simp [llm.stream_deltas, llm.send_delta_to_client]
  | cons o rest ih =>
    intro sent
    rw [llm.stream_deltas, List.flatten_cons, send_delta_to_client_append, ih]

/-- Claim C7: for a streamed request (its successive `RequestOutput` deltas given
as `outs`) and every sequence index that appears, the first chunk delivered
for that index is the role-announcement chunk with empty text, and it is
delivered exactly once for that index — hence it precedes every non-empty
text chunk and every finish-reason chunk of that index. -/
theorem first_delta_announces_each_sequence
    (outs : List (List llm.SequenceOutput)) (i : ℕ)
    (h : i ∈ outs.flatten.map llm.SequenceOutput.index) :
    (llm.stream_deltas [] outs).1.find? (llm.chunkHasIndex i) =
      some (llm.roleChunk i) ∧
    ((llm.stream_deltas [] outs).1.filter
        (fun c => llm.chunkHasIndex i c && llm.isRoleChunk c)).length = 1 := by
  have hh := send_core i outs.flatten []
  rw [stream_deltas_eq_flatten]
  refine ⟨?_, ?_⟩
  · rw [hh.2.2.2 (List.not_mem_nil i), if_pos h]
  · rw [hh.2.2.1 (List.not_mem_nil i), if_pos h]

/-- Concrete check of C7 on a two-delta stream for sequence index 0. -/
theorem first_delta_announces_each_sequence_witness :
    (llm.stream_deltas []
        [[⟨0, "hi", none⟩], [⟨0, "", some "stop"⟩]]).1.find?
      (llm.chunkHasIndex 0) = some (llm.roleChunk 0) ∧
    ((llm.stream_deltas []
        [[⟨0, "hi", none⟩], [⟨0, "", some "stop"⟩]]).1.filter
        (fun c => llm.chunkHasIndex 0 c && llm.isRoleChunk c)).length = 1 :=
  first_delta_announces_each_sequence
    [[⟨0, "hi", none⟩], [⟨0, "", some "stop"⟩]] 0 (by decide)

/-- Claim C5: `allocate(count)` returns exactly `count` block ids when at least
`count` are free; with fewer free it fails with `OutOfBlocks` and leaves the
allocator unchanged; and the scheduler's reaction to `OutOfBlocks` is
preemption with no event delivered to any output sink. -/
theorem allocate_out_of_blocks_spec (a : llm.core.BlockAllocator) (count : ℕ)
    (st : llm.core.SchedState) :
    (count ≤ a.num_free →
      (a.allocate count).1 = Except.ok (a.free_list.take count) ∧
      (a.free_list.take count).length = count) ∧
    (a.num_free < count →
      a.allocate count = (Except.error .outOfBlocks, a)) ∧
    st.handle_out_of_blocks = (st.preempt_one, []) := by
  refine ⟨?_, ?_, rfl⟩
  · intro h
    rw [llm.core.BlockAllocator.num_free] at h
    refine ⟨?_, ?_⟩
    · rw [llm.core.BlockAllocator.allocate, if_pos h]
    · rw [List.length_take]
      omega
  · intro h
    rw [llm.core.BlockAllocator.num_free] at h
    rw [llm.core.BlockAllocator.allocate, if_neg (by omega)]

/-- Concrete check of C5: three free blocks serve a request for two and
reject a request for five unchanged. -/
theorem allocate_out_of_blocks_spec_witness :
    ((llm.core.BlockAllocator.mk [0, 1, 2] 3).allocate 2).1 =
      Except.ok (([0, 1, 2] : List ℕ).take 2) ∧
    (llm.core.BlockAllocator.mk [0, 1, 2] 3).allocate 5 =
      (Except.error .outOfBlocks, llm.core.BlockAllocator.mk [0, 1, 2] 3) :=
  ⟨((allocate_out_of_blocks_spec ⟨[0, 1, 2], 3⟩ 2 llm.core.exState).1
      (by decide)).1,
   (allocate_out_of_blocks_spec ⟨[0, 1, 2], 3⟩ 5 llm.core.exState).2.1
      (by decide)⟩

/-- Helper: `count` tokens fit in `ceil(count / block_size)` blocks. -/
theorem le_ceil_div_mul (L bs : ℕ) (hbs : 0 < bs) :
    L ≤ ((L + bs - 1) / bs) * bs := by
  rw [Nat.mul_comm]
  have h1 := Nat.div_add_mod (L + bs - 1) bs
  have h2 := Nat.mod_lt (L + bs - 1) hbs
  omega

/-- Helper: after reserving `num_blocks_needed` more blocks, one more token
fits the block table. -/
theorem append_capacity (L btl bs : ℕ) (hbs : 0 < bs) :
    L + 1 ≤ (btl + ((((L + 1 + bs - 1) / bs : ℕ) : ℤ) - (btl : ℤ)).toNat) * bs := by
  have hge : L + 1 ≤ ((L + 1 + bs - 1) / bs) * bs := le_ceil_div_mul (L + 1) bs hbs
  by_cases hb : btl ≤ (L + 1 + bs - 1) / bs
  · have e1 : ((((L + 1 + bs - 1) / bs : ℕ) : ℤ) - (btl : ℤ)).toNat =
        (L + 1 + bs - 1) / bs - btl := by omega
    rw [e1]
    have e2 : btl + ((L + 1 + bs - 1) / bs - btl) = (L + 1 + bs - 1) / bs := by
      omega
    rw [e2]
    exact hge
  · have e1 : ((((L + 1 + bs - 1) / bs : ℕ) : ℤ) - (btl : ℤ)).toNat = 0 := by
      omega
    rw [e1, Nat.add_zero]
    calc L + 1 ≤ ((L + 1 + bs - 1) / bs) * bs := hge
    _ ≤ btl * bs := Nat.mul_le_mul_right bs (by omega)

/-- Claim C4: the capacity invariant `tokens.len ≤ block_table.len * block_size`
over every sequence holding KV blocks (the running pool) is preserved by
every operation that appends tokens or changes a block table: prefill
admission, a decode append, preemption (recompute) and release of finished
sequences. -/
theorem block_capacity_invariant_preserved (bs : ℕ) (hbs : 0 < bs)
    (st : llm.core.SchedState) (hinv : st.BlockCapInv bs) (tok : ℕ) (lp : ℚ) :
    (st.admit_one bs).BlockCapInv bs ∧
    (st.append_token_step bs tok lp).BlockCapInv bs ∧
    st.preempt_one.BlockCapInv bs ∧
    st.release_finished.BlockCapInv bs := by
  obtain ⟨al, wa, ru⟩ := st
  refine ⟨?_, ?_, ?_, ?_⟩
  · cases wa with
    | nil => exact hinv
    | cons s rest =>
      by_cases hle : (s.tokens.length + bs - 1) / bs ≤ al.free_list.length
      · simp only [llm.core.SchedState.admit_one, llm.core.BlockAllocator.allocate,
          if_pos hle]
        intro x hx
        rcases List.mem_append.mp hx with hx | hx
        · exact hinv x hx
        · rw [List.mem_singleton.mp hx]
          simp only [llm.core.block_cap_inv, List.length_take,
            Nat.min_eq_left hle]
          exact le_ceil_div_mul s.tokens.length bs hbs
      · simp only [llm.core.SchedState.admit_one, llm.core.BlockAllocator.allocate,
          if_neg hle]
        exact hinv
  · cases ru with
    | nil =>
      intro x hx
      exact absurd hx (List.not_mem_nil x)
    | cons s rest =>
      by_cases hle : (s.num_blocks_needed bs).toNat ≤ al.free_list.length
      · simp only [llm.core.SchedState.append_token_step,
          llm.core.BlockAllocator.allocate, if_pos hle]
        intro x hx
        rcases List.mem_append.mp hx with hx | hx
        · exact hinv x (List.mem_cons_of_mem s hx)
        · rw [List.mem_singleton.mp hx]
          simp only [llm.core.block_cap_inv, llm.core.Sequence.append_token,
            List.length_append, List.length_take, Nat.min_eq_left hle,
            List.length_singleton]
          have := append_capacity s.tokens.length s.block_table.length bs hbs
          simp only [llm.core.Sequence.num_blocks_needed]
          omega
      · simp only [llm.core.SchedState.append_token_step,
          llm.core.BlockAllocator.allocate, if_neg hle]
        exact hinv
  · cases hm : ru.getLast? with
    | none =>
      simp only [llm.core.SchedState.preempt_one, hm]
      exact hinv
    | some s =>
      simp only [llm.core.SchedState.preempt_one, hm]
      intro x hx
      exact hinv x ((List.dropLast_sublist ru).subset hx)
  · intro x hx
    exact hinv x (List.mem_of_mem_filter hx)

/-- Concrete check of C4 on a small populated scheduler state with block
size 4. -/
theorem block_capacity_invariant_preserved_witness :
    (llm.core.exState.admit_one 4).BlockCapInv 4 ∧
    (llm.core.exState.append_token_step 4 11 (-1)).BlockCapInv 4 ∧
    llm.core.exState.preempt_one.BlockCapInv 4 ∧
    llm.core.exState.release_finished.BlockCapInv 4 :=
  block_capacity_invariant_preserved 4 (by norm_num) llm.core.exState
    (by
      intro s hs
      simp only [llm.core.exState, List.mem_singleton] at hs
      subst hs
      simp [llm.core.block_cap_inv])
    11 (-1)

/-- Claim C1: best-of selection delivers exactly the top-`n` siblings ranked by
length-normalized cumulative log-probability: the chosen plus discarded
sequences are a permutation of the siblings, exactly `min n best_of` are
chosen, every discarded sibling scores no better than every chosen one, and
the first delivered choice's normalized score is the maximum over all
siblings. -/
theorem best_of_selects_top_normalized (seqs : List llm.core.Sequence) (n : ℕ) :
    (llm.core.Request.select_outputs seqs n ++
        llm.core.Request.discarded_outputs seqs n).Perm seqs ∧
    (llm.core.Request.select_outputs seqs n).length = min n seqs.length ∧
    (∀ c ∈ llm.core.Request.select_outputs seqs n,
      ∀ d ∈ llm.core.Request.discarded_outputs seqs n,
        d.normalized_logprob ≤ c.normalized_logprob) ∧
    (∀ hd, (llm.core.Request.select_outputs seqs n).head? = some hd →
      ∀ s ∈ seqs, s.normalized_logprob ≤ hd.normalized_logprob) := by
  have hperm := List.perm_insertionSort llm.core.ranked_above seqs
  have hsort := List.sorted_insertionSort llm.core.ranked_above seqs
  have hsplit := List.take_append_drop n (seqs.insertionSort llm.core.ranked_above)
  refine ⟨?_, ?_, ?_, ?_⟩
  · rw [llm.core.Request.select_outputs, llm.core.Request.discarded_outputs,
      hsplit]
    exact hperm
  · rw [llm.core.Request.select_outputs, List.length_take, hperm.length_eq]
  · intro c hc d hd
    have hpair : List.Pairwise llm.core.ranked_above
        (seqs.insertionSort llm.core.ranked_above) := hsort
    rw [← hsplit, List.pairwise_append] at hpair
    exact hpair.2.2 c hc d hd
  · intro hd hhd s hs
    have hmem : s ∈ seqs.insertionSort llm.core.ranked_above :=
      hperm.mem_iff.mpr hs
    cases hgl : seqs.insertionSort llm.core.ranked_above with
    | nil =>
      rw [hgl] at hmem
      exact absurd hmem (List.not_mem_nil s)
    | cons a tail =>
      have hd_eq : hd = a := by
        rw [llm.core.Request.select_outputs, hgl] at hhd
        cases n with
        | zero => simp at hhd
        | succ m =>
          simp only [List.take_succ_cons, List.head?_cons,
            Option.some_inj] at hhd
          exact hhd.symm
      subst hd_eq
      rw [hgl] at hmem hsort
      have hrel := (List.pairwise_cons.mp hsort).1
      rcases List.mem_cons.mp hmem with rfl | hmem
      · exact le_refl _
      · exact hrel s hmem

/-- Concrete check of C1: among three finished siblings with normalized
scores -1, -1/2 and -2, the single delivered choice is the -1/2 one and it
dominates the worst sibling. -/
theorem best_of_selects_top_normalized_witness :
    (llm.core.Request.select_outputs
        [llm.core.exSeqA, llm.core.exSeqB, llm.core.exSeqC] 1 ++
      llm.core.Request.discarded_outputs
        [llm.core.exSeqA, llm.core.exSeqB, llm.core.exSeqC] 1).Perm
      [llm.core.exSeqA, llm.core.exSeqB, llm.core.exSeqC] ∧
    llm.core.exSeqC.normalized_logprob ≤ llm.core.exSeqB.normalized_logprob := by
  have hsel : llm.core.Request.select_outputs
      [llm.core.exSeqA, llm.core.exSeqB, llm.core.exSeqC] 1 =
        [llm.core.exSeqB] := by
    rw [llm.core.Request.select_outputs]
    norm_num [List.insertionSort, List.orderedInsert, llm.core.ranked_above,
      llm.core.Sequence.normalized_logprob, llm.core.Sequence.tokens_generated,
      llm.core.exSeqA, llm.core.exSeqB, llm.core.exSeqC]
  exact ⟨(best_of_selects_top_normalized
      [llm.core.exSeqA, llm.core.exSeqB, llm.core.exSeqC] 1).1,
    (best_of_selects_top_normalized
      [llm.core.exSeqA, llm.core.exSeqB, llm.core.exSeqC] 1).2.2.2
      llm.core.exSeqB (by rw [hsel]; rfl) llm.core.exSeqC (by simp)⟩

/-- Helper: one generation step is deterministic — the greedy and stochastic
branches are mutually exclusive on the temperature, and each picks a unique
successor state. -/
theorem gen_step_deterministic (cfg : llm.sampling.GenConfig)
    {s t u : List ℕ × ℕ} (h1 : llm.sampling.GenStep cfg s t)
    (h2 : llm.sampling.GenStep cfg s u) : t = u := by
  cases h1 with
  | greedy tokens rng h0 =>
    cases h2 with
    | greedy _ _ _ => rfl
    | sampled _ _ hn => exact absurd h0 hn
  | sampled tokens rng hn =>
    cases h2 with
    | greedy _ _ h0 => exact absurd h0 hn
    | sampled _ _ _ => rfl

/-- Claim C6: generation is deterministic as a two-run equality — any two runs of
`k` steps of the modelled pipeline (batching abstracted into the engine's
per-sequence contract, sampling seeded by the RNG state) from the same
prompt, the same sampling configuration and the same seed end in the same
token sequence and RNG state. -/
theorem generation_deterministic (cfg : llm.sampling.GenConfig)
    (prompt : List ℕ) (seed : ℕ) (k : ℕ) (t1 t2 : List ℕ × ℕ)
    (h1 : llm.sampling.GenRun cfg (prompt, seed) k t1)
    (h2 : llm.sampling.GenRun cfg (prompt, seed) k t2) : t1 = t2 := by
  induction k generalizing t1 t2 with
  | zero =>
    cases h1
    cases h2
    rfl
  | succ k ih =>
    cases h1 with
    | succ hr1 hs1 =>
      cases h2 with
      | succ hr2 hs2 =>
        have heq := ih _ _ hr1 hr2
        subst heq
        exact gen_step_deterministic cfg hs1 hs2

/-- Concrete check of C6: two one-step greedy runs from prompt `[1]` with
seed 42 under the example configuration reach the same state. -/
theorem generation_deterministic_witness :
    (([1] ++ [llm.sampling.greedy_next llm.sampling.exampleConfig [1]], 42) :
        List ℕ × ℕ) =
      ([1] ++ [llm.sampling.greedy_next llm.sampling.exampleConfig [1]], 42) :=
  generation_deterministic llm.sampling.exampleConfig [1] 42 1 _ _
    (llm.sampling.GenRun.succ llm.sampling.GenRun.zero
      (llm.sampling.GenStep.greedy [1] 42 rfl))
    (llm.sampling.GenRun.succ llm.sampling.GenRun.zero
      (llm.sampling.GenStep.greedy [1] 42 rfl))
